import Mathlib

/-!
Shallow embedding of the trading engine in `app/algo.py` and `app/db.py`
(repository Pmanos1/TestBot).  Python floats/Decimals are modelled as
exact rationals (ℚ); timestamps are rationals (seconds for wall-clock
elapsed times, minutes for bar/time-stop arithmetic); the SQLite trades
table is a list of `Trade` records in insertion order; exchange I/O is
passed in explicitly as data (poll observations, submission outcomes,
per-order lookup functions).
-/

namespace TestBot

/-- Configuration constants read from `app/config.py` settings and the
symbol metadata fetched in `run_algo` (`BASE_MIN_SIZE`, `BASE_INCREMENT`,
`PRICE_INCREMENT`). -/
structure Config where
  HL_DIFF_THRESHOLD : ℚ
  PROFIT_TARGET_MULT : ℚ
  STOP_LOSS_MULT : ℚ
  TIME_STOP_MINUTES : ℚ
  LIMIT_SLIPPAGE : ℚ
  BASE_MIN_SIZE : ℚ
  BASE_INCREMENT : ℚ
  PRICE_INCREMENT : ℚ
  deriving DecidableEq

/-- `MAX_ORDER_RETRIES = 5` (algo.py line 76). -/
def MAX_ORDER_RETRIES : Nat := 5

/-- `INITIAL_RETRY_DELAY = 1` second (algo.py line 77). -/
def INITIAL_RETRY_DELAY : ℚ := 1

/-- `BALANCE_CACHE_TTL = 60.0` seconds (algo.py line 88). -/
def BALANCE_CACHE_TTL : ℚ := 60

/-- `floor_price_to_tick` (algo.py lines 184-187):
`(Decimal(str(p)) // inc) * inc`, then a value-preserving
`quantize(inc, ROUND_DOWN)`.  Decimal floor-division truncates toward
zero, which coincides with `Int.floor` on the nonnegative prices the
engine feeds it, so we model it as flooring to a multiple of `inc`. -/
def floor_price_to_tick (inc p : ℚ) : ℚ :=
  (⌊p / inc⌋ : ℤ) * inc

/-- `Decimal.quantize(Decimal(str(inc)), rounding=ROUND_DOWN)` applied to a
nonnegative quantity (algo.py lines 411-413): rounding down to the decimal
exponent of `inc`.  For the power-of-ten increments the exchange publishes
this is exactly flooring to a multiple of `inc`, which is what we model. -/
def quantizeDown (inc q : ℚ) : ℚ :=
  (⌊q / inc⌋ : ℤ) * inc

/-- Python's `str.lower()`, modelled character by character (the status
and side strings the engine compares are ASCII). -/
def strLower (s : String) : String :=
  ⟨s.data.map Char.toLower⟩

/-- Status normalisation used after submission and during confirmation
polling (algo.py lines 237-244 and 307-314):
`rs = (status or "").lower()`; "done"/"filled" → "filled",
"canceled"/"cancelled" → "canceled", anything else → "open". -/
def normalizeStatus (s : String) : String :=
  let rs := strLower s
  if rs = "done" ∨ rs = "filled" then "filled"
  else if rs = "canceled" ∨ rs = "cancelled" then "canceled"
  else "open"

/-- Reconciliation's mapping of the exchange `opType` field to a local
status (algo.py lines 555-561): "deal" → "filled", "cancel" → "canceled",
anything else → "open".  The caller lowercases the field first. -/
def mapOpType (op : String) : String :=
  if op = "deal" then "filled"
  else if op = "cancel" then "canceled"
  else "open"

/-! ## Ledger model (`app/db.py`) -/

/-- A row of the `trades` table (db.py class `Trade`).  The SQLAlchemy
surrogate primary key is irrelevant to the claims; rows are kept in
insertion order, which is the order `.first()` scans them in. -/
structure Trade where
  order_id : String
  status : String
  type : String
  symbol : String
  price : ℚ
  quantity : ℚ
  timestamp : ℚ
  pnl : Option ℚ
  deriving DecidableEq

/-- `create_trade` (db.py lines 100-128): insert a new row. -/
def create_trade (db : List Trade) (t : Trade) : List Trade :=
  db ++ [t]

/-- `update_trade_status` (db.py lines 131-147): find the first row with
the given `order_id` and overwrite its status in place; no-op when no row
matches.  Note there is no terminality guard: any status overwrites any
other. -/
def update_trade_status (db : List Trade) (order_id new_status : String) :
    List Trade :=
  match db with
  | [] => []
  | t :: rest =>
      if t.order_id = order_id then { t with status := new_status } :: rest
      else t :: update_trade_status rest order_id new_status

/-- `db.query(Trade).filter(Trade.order_id == oid).first()`. -/
def find_by_order_id (db : List Trade) (order_id : String) : Option Trade :=
  db.find? (fun t => t.order_id = order_id)

/-- The pending-order query of `sync_open_trades` (algo.py lines 527-532):
all rows whose status is NOT in `["filled", "canceled"]`. -/
def pendingTrades (db : List Trade) : List Trade :=
  db.filter (fun t => ¬(t.status = "filled" ∨ t.status = "canceled"))

/-! ## Bar aggregator (algo.py lines 141-149, 372-374, 482-491) -/

/-- A normalized tick: its minute-floored timestamp, price and size. -/
structure Tick where
  minute : ℚ
  price : ℚ
  size : ℚ
  deriving DecidableEq

/-- The in-progress one-minute OHLCV bar (`current_bar`).  `minute` is
`none` before the first tick ever arrives. -/
structure Bar where
  minute : Option ℚ
  open_ : ℚ
  high : ℚ
  low : ℚ
  close : ℚ
  volume : ℚ
  deriving DecidableEq

/-- Within-minute update (algo.py lines 487-491):
high = max(high, price), low = min(low, price), close = price,
volume += size. -/
def updateBar (b : Bar) (price size : ℚ) : Bar :=
  { b with
    high := max b.high price
    low := min b.low price
    close := price
    volume := b.volume + size }

/-- Starting a fresh bar on minute rollover (algo.py lines 483-485). -/
def newBar (minute price size : ℚ) : Bar :=
  { minute := some minute, open_ := price, high := price, low := price,
    close := price, volume := size }

/-- One tick through the bar-aggregation branch of `handle`
(algo.py lines 372, 482-491): a strictly later minute (or an uninitialised
bar) closes the current bar and starts a new one, anything else updates
the current bar in place.  Returns the updated current bar and the closed
bar if one was emitted. -/
def barStep (b : Bar) (t : Tick) : Bar × Option Bar :=
  match b.minute with
  | none => (newBar t.minute t.price t.size, none)
  | some m =>
      if t.minute > m then (newBar t.minute t.price t.size, some b)
      else (updateBar b t.price t.size, none)

/-- Folding a sequence of ticks through `barStep`, keeping the current
bar. -/
def processTicks (b : Bar) (ticks : List Tick) : Bar :=
  ticks.foldl (fun cur t => (barStep cur t).1) b

/-! ## Order submission with retry (algo.py lines 193-282) -/

/-- The payload a successful submission attempt returns (the unwrapped
KuCoin order dict): the status string it reports and the assigned order
id. -/
structure SubmitResp where
  status : String
  orderId : String
  deriving DecidableEq

/-- Outcome of `place_order_with_retry`: the response of the successful
attempt, or the exception propagated after the final attempt failed. -/
inductive RetryResult where
  | ok (resp : SubmitResp)
  | err
  deriving DecidableEq

/-- Trace of one run of `place_order_with_retry`: its outcome, how many
attempts were consumed, the backoff delays slept between attempts, and
the ledger after the run. -/
structure RetryTrace where
  result : RetryResult
  attempts : Nat
  delays : List ℚ
  ledger : List Trade
  deriving DecidableEq

/-- The retry loop body of `place_order_with_retry` (algo.py lines
194-282).  `o n` is what attempt number `n` does: `some resp` when the
exchange call returns, `none` when it raises.  On success the order is
recorded in the DB with the normalised initial status and the
caller-supplied price/size (price 0 when the caller passed none,
mirroring `float(price or 0)`); on failure the loop sleeps the current
delay, doubles it and retries, except on the final attempt, which
re-raises.  `fuel` is the number of attempts still allowed
(`MAX_ORDER_RETRIES - attempt + 1`). -/
def retry_go (o : Nat → Option SubmitResp) (side symbol : String)
    (price qty ts : ℚ) (ledger : List Trade)
    (attempt fuel : Nat) (delay : ℚ) (delays : List ℚ) : RetryTrace :=
  match fuel with
  | 0 => ⟨.err, attempt - 1, delays, ledger⟩
  | f + 1 =>
      match o attempt with
      | some resp =>
          let initial_status := normalizeStatus resp.status
          let ledger' := create_trade ledger
            { order_id := resp.orderId, status := initial_status,
              type := side, symbol := symbol, price := price,
              quantity := qty, timestamp := ts, pnl := none }
          ⟨.ok resp, attempt, delays, ledger'⟩
      | none =>
          if f = 0 then ⟨.err, attempt, delays, ledger⟩
          else retry_go o side symbol price qty ts ledger
                 (attempt + 1) f (delay * 2) (delays ++ [delay])

/-- `place_order_with_retry` (algo.py lines 193-282): run the loop from
attempt 1 with the initial 1-second delay and at most
`MAX_ORDER_RETRIES` attempts. -/
def place_order_with_retry (o : Nat → Option SubmitResp)
    (side symbol : String) (price qty ts : ℚ) (ledger : List Trade) :
    RetryTrace :=
  retry_go o side symbol price qty ts ledger 1 MAX_ORDER_RETRIES
    INITIAL_RETRY_DELAY []

/-! ## Confirmation polling (algo.py lines 286-338) -/

/-- One observation of the order made by the polling loop of
`place_and_confirm_order`: the raw status string KuCoin reports, its
`isActive` flag, and the wall-clock seconds elapsed since `start_time`
when this iteration reaches the timeout check. -/
structure PollObs where
  status : String
  isActive : Bool
  elapsed : ℚ
  deriving DecidableEq

/-- How the polling loop of `place_and_confirm_order` ends. -/
inductive ConfirmOutcome where
  /-- The order reported inactive with a status mapping to "filled";
  the status payload is returned to the caller. -/
  | filled (obs : PollObs)
  /-- The order reported inactive with a non-filled mapped status;
  `RuntimeError(f"Order {oid} {mapped}")` is raised. -/
  | terminalErr (mapped : String)
  /-- More than 60 seconds elapsed with the order still active:
  `kc.cancel_order` is issued, the record is marked canceled and
  `RuntimeError(... canceled after timeout)` is raised. -/
  | timeoutCanceled
  /-- The supplied observation sequence ran out with the loop still
  polling. -/
  | pending
  deriving DecidableEq

/-- The polling loop of `place_and_confirm_order` (algo.py lines
292-338), driven by the finite list of observations the exchange will
produce.  Returns the outcome, the ledger after the loop, and whether an
explicit `cancel_order` request was issued. -/
def confirmLoop (ledger : List Trade) (oid : String)
    (polls : List PollObs) : ConfirmOutcome × List Trade × Bool :=
  match polls with
  | [] => (.pending, ledger, false)
  | obs :: rest =>
      let mapped := normalizeStatus obs.status
      if obs.isActive = false then
        let ledger' := update_trade_status ledger oid mapped
        if mapped = "filled" then (.filled obs, ledger', false)
        else (.terminalErr mapped, ledger', false)
      else if obs.elapsed > 60 then
        (.timeoutCanceled, update_trade_status ledger oid "canceled", true)
      else confirmLoop ledger oid rest

/-! ## Position state machine (algo.py lines 170-178, 391-480) -/

/-- The mutable trading globals of algo.py (lines 173-178) that the
decision cell of `handle` reads and writes.  Times are rationals in
minutes (`ts`, `buy_time`) so the `timedelta(minutes=...)` time stop is
plain addition. -/
structure AlgoState where
  in_position : Bool
  BP : ℚ
  buy_time : ℚ
  high_water : ℚ
  exit_price : ℚ
  DV_before_trade : ℚ
  wins : Nat
  losses : Nat
  total_PnL : ℚ
  deriving DecidableEq

/-- The high-water-mark update of the sell branch (algo.py lines
438-439): `if price > high_water: high_water = price`. -/
def updateHighWater (hw price : ℚ) : ℚ :=
  if price > hw then price else hw

/-- The exit trigger of the sell branch (algo.py lines 441-443):
trailing stop, model reversal, or time stop. -/
def exitCond (cfg : Config) (hw price curH ts buy_time : ℚ) : Prop :=
  price ≤ hw * cfg.STOP_LOSS_MULT ∨ curH < 0 ∨
    ts > buy_time + cfg.TIME_STOP_MINUTES

instance (cfg : Config) (hw price curH ts buy_time : ℚ) :
    Decidable (exitCond cfg hw price curH ts buy_time) := by
  unfold exitCond; infer_instance

/-- The limit reference price of the buy branch (algo.py lines 400-407):
best bid times `(1 + LIMIT_SLIPPAGE)` when the ticker fetch succeeds,
the tick price otherwise, floored to the price increment. -/
def buyRefPrice (cfg : Config) (ticker_bid : Option ℚ) (price : ℚ) : ℚ :=
  let raw_p := match ticker_bid with
    | some bb => bb * (1 + cfg.LIMIT_SLIPPAGE)
    | none => price
  floor_price_to_tick cfg.PRICE_INCREMENT raw_p

/-- The buy quantity (algo.py lines 410-414):
`(Decimal(available_quote) / price_dec).quantize(BASE_INCREMENT,
ROUND_DOWN)`. -/
def buyQty (cfg : Config) (available_quote price_dec : ℚ) : ℚ :=
  quantizeDown cfg.BASE_INCREMENT (available_quote / price_dec)

/-- The sell quantity (algo.py lines 445-448):
`math.floor(raw_q / (BASE_INCREMENT or 1e-6)) * (BASE_INCREMENT or 1e-6)`
with a zero increment falling back to `1e-6`.  The trailing
`round(..., prec)` only strips float noise: in exact rational arithmetic
a floored multiple of a power-of-ten increment already has `prec`
decimals, so it is the identity here. -/
def sellQty (cfg : Config) (raw_q : ℚ) : ℚ :=
  let inc := if cfg.BASE_INCREMENT = 0 then 1 / 1000000 else cfg.BASE_INCREMENT
  (⌊raw_q / inc⌋ : ℤ) * inc

/-- An order request handed to the execution pipeline by the decision
cell, with the price and size arguments of the
`place_and_confirm_order` call. -/
inductive OrderReq where
  | buy (price qty : ℚ)
  | sell (price qty : ℚ)
  deriving DecidableEq

/-- The log events the decision cell emits on its skip/failure paths
(algo.py lines 397, 417, 429, 450, 461). -/
inductive LogEvent where
  | noQuoteToBuy
  | buyQtyBelowMin
  | buyFailed
  | notEnoughToSell
  | sellFailed
  deriving DecidableEq

/-- Outcome of the `place_and_confirm_order` call as seen by `handle`:
either the confirmed fill payload (`dealPrice`, `dealSize`) or the
exception swallowed by the `except` clause. -/
inductive FillOutcome where
  | ok (dealPrice dealSize : ℚ)
  | err
  deriving DecidableEq

/-- Result of one run of the decision cell: the updated trading state,
the order request submitted to the pipeline (if any), and the log events
emitted. -/
structure CycleResult where
  state : AlgoState
  request : Option OrderReq
  logs : List LogEvent
  deriving DecidableEq

/-- The trading decision cell of `handle` (algo.py lines 391-480),
executed on a minute rollover once predictions `curH`, `curL` and
`hl_diff` are available.  Inputs that the Python code obtains by I/O are
passed as data: `available_quote`/`available_base` from the balance
cache, `ticker_bid` from the `kc.get_ticker` call of the buy branch
(`none` when it raises), `fill` from `place_and_confirm_order`
(`.err` when it raises), `DV_after` from the balance refresh after a
sell fill.  `price` and `ts` are the tick's price and timestamp. -/
def handleCycle (cfg : Config) (stop_requested : Bool) (s : AlgoState)
    (curH curL hl_diff price ts : ℚ)
    (available_quote available_base : ℚ)
    (ticker_bid : Option ℚ) (fill : FillOutcome) (DV_after : ℚ) :
    CycleResult :=
  if ¬s.in_position ∧ ¬stop_requested ∧ hl_diff ≥ cfg.HL_DIFF_THRESHOLD ∧
      curH ≥ 0 ∧ curL > 0 then
    if available_quote ≤ 1 / 100000000 then
      ⟨s, none, [.noQuoteToBuy]⟩
    else
      let price_dec := buyRefPrice cfg ticker_bid price
      let qty := buyQty cfg available_quote price_dec
      if qty < cfg.BASE_MIN_SIZE then
        ⟨s, none, [.buyQtyBelowMin]⟩
      else
        let s1 := { s with DV_before_trade := available_quote }
        match fill with
        | .err => ⟨s1, some (.buy price_dec qty), [.buyFailed]⟩
        | .ok fp _fs =>
            ⟨{ s1 with
                in_position := true
                BP := fp
                buy_time := ts
                high_water := fp
                exit_price := fp * cfg.PROFIT_TARGET_MULT },
              some (.buy price_dec qty), []⟩
  else if s.in_position then
    let hw := updateHighWater s.high_water price
    let s1 := { s with high_water := hw }
    if exitCond cfg hw price curH ts s.buy_time then
      let qty := sellQty cfg available_base
      if qty ≤ cfg.BASE_MIN_SIZE then
        ⟨s1, none, [.notEnoughToSell]⟩
      else
        match fill with
        | .err => ⟨s1, some (.sell price qty), [.sellFailed]⟩
        | .ok _fp _fs =>
            let pnl := DV_after - s.DV_before_trade
            ⟨{ s1 with
                in_position := false
                wins := s1.wins + (if pnl ≥ 0 then 1 else 0)
                losses := s1.losses + (if pnl < 0 then 1 else 0)
                total_PnL := s1.total_PnL + pnl },
              some (.sell price qty), []⟩
    else ⟨s1, none, []⟩
  else ⟨s, none, []⟩

/-! ## Reconciliation (`sync_open_trades`, algo.py lines 498-588) -/

/-- What `fetch_order_with_retry` ultimately yields for one order: the
exchange's (lowercased) `opType` field and its `isActive` flag. -/
structure ExchOrder where
  opType : String
  isActive : Bool
  deriving DecidableEq

/-- The body of the `for t in pending` loop of `sync_open_trades`
(algo.py lines 538-583) for one pending record `t`.  `exch` gives the
exchange's answer for an order id (`none` when all fetch retries failed,
which the loop skips with `continue`); `quote_avail` is what
`get_available(QUOTE)` returns when a filled buy refreshes
`DV_before_trade`.  Carries the (ledger, trading-state) pair. -/
def sync_step (cfg : Config) (exch : String → Option ExchOrder)
    (quote_avail : ℚ) (acc : List Trade × AlgoState) (t : Trade) :
    List Trade × AlgoState :=
  match exch t.order_id with
  | none => acc
  | some data =>
      if data.isActive then acc
      else
        let real_status := mapOpType data.opType
        if real_status ≠ t.status then
          let ledger' := update_trade_status acc.1 t.order_id real_status
          if strLower t.type = "buy" ∧ real_status = "filled" then
            (ledger',
              { acc.2 with
                  in_position := true
                  BP := t.price
                  buy_time := t.timestamp
                  high_water := t.price
                  exit_price := t.price * cfg.PROFIT_TARGET_MULT
                  DV_before_trade := quote_avail })
          else (ledger', acc.2)
        else acc

/-- `sync_open_trades` (algo.py lines 520-588): select every ledger row
whose status is not terminal, then walk them updating statuses from
exchange truth and restoring the in-memory position when a buy turns out
filled. -/
def sync_open_trades (cfg : Config) (exch : String → Option ExchOrder)
    (quote_avail : ℚ) (ledger : List Trade) (pos : AlgoState) :
    List Trade × AlgoState :=
  (pendingTrades ledger).foldl (sync_step cfg exch quote_avail)
    (ledger, pos)

/-! ## Concrete fixtures used by witnesses and counterexamples -/

/-- A concrete configuration: threshold 0.002, profit target 1.02,
stop-loss 0.99, 30-minute time stop, slippage 0.001, baseMinSize 0.1,
baseIncrement 0.001, priceIncrement 0.01. -/
def cfgW : Config :=
  ⟨2/1000, 102/100, 99/100, 30, 1/1000, 1/10, 1/1000, 1/100⟩

/-- A concrete configuration whose base increment equals its minimum
size (0.1), exhibiting the `qty == baseMinSize` boundary. -/
def cfgB : Config :=
  ⟨2/1000, 102/100, 99/100, 30, 1/1000, 1/10, 1/10, 1/100⟩

/-- A flat trading state. -/
def flatW : AlgoState := ⟨false, 0, 0, 0, 0, 0, 0, 0, 0⟩

/-- A LONG trading state: entered at 10, high water 12, profit target
10.2, quote snapshot 100. -/
def longW : AlgoState := ⟨true, 10, 0, 12, 102/10, 100, 0, 0, 0⟩

/-- A persisted open buy record. -/
def rOpenW : Trade := ⟨"oid1", "open", "buy", "KCS-USDT", 5, 2, 1000, none⟩

/-- A persisted buy record already in the terminal status "filled". -/
def rFilledW : Trade :=
  ⟨"oid2", "filled", "buy", "KCS-USDT", 5, 2, 1000, none⟩

/-- A current bar in minute 0. -/
def barW : Bar := ⟨some 0, 1, 1, 1, 1, 0⟩

/-- A tick in minute 0 at price 2, size 3. -/
def tickW : Tick := ⟨0, 2, 3⟩

/-- A second tick in minute 0 at price 1/2, size 2. -/
def tickW2 : Tick := ⟨0, 1/2, 2⟩

/-! ## Helper lemmas -/

/-- Flooring down to a positive increment never exceeds the input. -/
theorem quantizeDown_le {inc q : ℚ} (hinc : 0 < inc) :
    quantizeDown inc q ≤ q := by
  unfold quantizeDown
  calc ((⌊q / inc⌋ : ℤ) : ℚ) * inc ≤ (q / inc) * inc := by
        exact mul_le_mul_of_nonneg_right (Int.floor_le _) hinc.le
    _ = q := div_mul_cancel₀ q hinc.ne'

/-- `updateBar` leaves the bar's minute and open untouched. -/
theorem updateBar_minute (b : Bar) (p s : ℚ) :
    (updateBar b p s).minute = b.minute := rfl

/-- A tick in the bar's own minute goes through the in-place update
branch of `barStep`. -/
theorem barStep_same_minute {b : Bar} {m : ℚ} (t : Tick)
    (hb : b.minute = some m) (ht : t.minute = m) :
    barStep b t = (updateBar b t.price t.size, none) := by
  simp [barStep, hb, ht]

/-- Unfolding `processTicks` over a same-minute head tick. -/
theorem processTicks_cons_same {b : Bar} {m : ℚ} (t : Tick)
    (ts : List Tick) (hb : b.minute = some m) (ht : t.minute = m) :
    processTicks b (t :: ts) = processTicks (updateBar b t.price t.size) ts := by
  simp [processTicks, barStep_same_minute t hb ht]

/-- Folding same-minute ticks preserves the bar's minute. -/
theorem processTicks_minute {m : ℚ} (ticks : List Tick) :
    ∀ b : Bar, b.minute = some m → (∀ t ∈ ticks, t.minute = m) →
      (processTicks b ticks).minute = some m := by
  induction ticks with
  | nil => intro b hb _; simpa [processTicks] using hb
  | cons t ts ih =>
      intro b hb hts
      rw [processTicks_cons_same t ts hb (hts t (by simp))]
      exact ih _ (by simpa [updateBar] using hb)
        (fun u hu => hts u (by simp [hu]))

/-- Folding same-minute ticks never lowers the bar's high. -/
theorem processTicks_high_mono {m : ℚ} (ticks : List Tick) :
    ∀ b : Bar, b.minute = some m → (∀ t ∈ ticks, t.minute = m) →
      b.high ≤ (processTicks b ticks).high := by
  induction ticks with
  | nil => intro b _ _; simp [processTicks]
  | cons t ts ih =>
      intro b hb hts
      rw [processTicks_cons_same t ts hb (hts t (by simp))]
      calc b.high ≤ (updateBar b t.price t.size).high := le_max_left _ _
        _ ≤ _ := ih _ (by simpa [updateBar] using hb)
              (fun u hu => hts u (by simp [hu]))

/-- Folding same-minute ticks never raises the bar's low. -/
theorem processTicks_low_anti {m : ℚ} (ticks : List Tick) :
    ∀ b : Bar, b.minute = some m → (∀ t ∈ ticks, t.minute = m) →
      (processTicks b ticks).low ≤ b.low := by
  induction ticks with
  | nil => intro b _ _; simp [processTicks]
  | cons t ts ih =>
      intro b hb hts
      rw [processTicks_cons_same t ts hb (hts t (by simp))]
      calc (processTicks (updateBar b t.price t.size) ts).low
          ≤ (updateBar b t.price t.size).low :=
            ih _ (by simpa [updateBar] using hb)
              (fun u hu => hts u (by simp [hu]))
        _ ≤ b.low := min_le_left _ _

/-- After folding same-minute ticks, the close is the last tick's price. -/
theorem processTicks_close {m : ℚ} (ticks : List Tick) :
    ∀ b : Bar, b.minute = some m → (∀ t ∈ ticks, t.minute = m) →
      ∀ hne : ticks ≠ [],
        (processTicks b ticks).close = (ticks.getLast hne).price := by
  induction ticks with
  | nil => intro _ _ _ hne; exact absurd rfl hne
  | cons t ts ih =>
      intro b hb hts hne
      rw [processTicks_cons_same t ts hb (hts t (by simp))]
      cases ts with
      | nil => simp [processTicks, updateBar]
      | cons u us =>
          rw [ih _ (by simpa [updateBar] using hb)
            (fun v hv => hts v (by simp [hv])) (by simp)]
          simp [List.getLast]

/-- After folding same-minute ticks, the volume grew by exactly the sum
of the tick sizes. -/
theorem processTicks_volume {m : ℚ} (ticks : List Tick) :
    ∀ b : Bar, b.minute = some m → (∀ t ∈ ticks, t.minute = m) →
      (processTicks b ticks).volume = b.volume + (ticks.map Tick.size).sum := by
  induction ticks with
  | nil => intro b _ _; simp [processTicks]
  | cons t ts ih =>
      intro b hb hts
      rw [processTicks_cons_same t ts hb (hts t (by simp))]
      rw [ih _ (by simpa [updateBar] using hb)
        (fun v hv => hts v (by simp [hv]))]
      simp [updateBar]
      ring

/-- After folding same-minute ticks, every observed price is between the
bar's low and high. -/
theorem processTicks_bounds {m : ℚ} (ticks : List Tick) :
    ∀ b : Bar, b.minute = some m → (∀ t ∈ ticks, t.minute = m) →
      ∀ t ∈ ticks, t.price ≤ (processTicks b ticks).high ∧
        (processTicks b ticks).low ≤ t.price := by
  induction ticks with
  | nil => intro b _ _ t ht; exact absurd ht (by simp)
  | cons u us ih =>
      intro b hb hts t ht
      rw [processTicks_cons_same u us hb (hts u (by simp))]
      have hb' : (updateBar b u.price u.size).minute = some m := by
        simpa [updateBar] using hb
      have hts' : ∀ v ∈ us, v.minute = m := fun v hv => hts v (by simp [hv])
      rcases List.mem_cons.mp ht with rfl | htl
      · constructor
        · calc t.price ≤ (updateBar b t.price t.size).high :=
                le_max_right _ _
            _ ≤ _ := processTicks_high_mono us _ hb' hts'
        · calc (processTicks (updateBar b t.price t.size) us).low
              ≤ (updateBar b t.price t.size).low :=
                processTicks_low_anti us _ hb' hts'
            _ ≤ t.price := min_le_right _ _
      · exact ih _ hb' hts' t htl

/-- Claim C4: for every sequence of ticks whose timestamps fall in the
current bar's minute, after processing them the bar's high is at least
every observed price, its low is at most every observed price, its close
equals the last observed price, and its volume is the prior volume plus
the sum of the observed sizes. -/
theorem bar_aggregation_within_minute (b : Bar) (m : ℚ) (ticks : List Tick)
    (hb : b.minute = some m) (hticks : ∀ t ∈ ticks, t.minute = m)
    (hne : ticks ≠ []) :
    (∀ t ∈ ticks, t.price ≤ (processTicks b ticks).high ∧
        (processTicks b ticks).low ≤ t.price) ∧
      (processTicks b ticks).close = (ticks.getLast hne).price ∧
      (processTicks b ticks).volume = b.volume + (ticks.map Tick.size).sum :=
  ⟨processTicks_bounds ticks b hb hticks,
   processTicks_close ticks b hb hticks hne,
   processTicks_volume ticks b hb hticks⟩

/-- Witness for C4 at a concrete bar and two concrete same-minute
ticks. -/
theorem bar_aggregation_within_minute_witness :
    (∀ t ∈ [tickW, tickW2], t.price ≤ (processTicks barW [tickW, tickW2]).high ∧
        (processTicks barW [tickW, tickW2]).low ≤ t.price) ∧
      (processTicks barW [tickW, tickW2]).close =
        (([tickW, tickW2]).getLast (by decide)).price ∧
      (processTicks barW [tickW, tickW2]).volume =
        barW.volume + (([tickW, tickW2]).map Tick.size).sum :=
  bar_aggregation_within_minute barW 0 [tickW, tickW2] rfl
    (by decide) (by decide)

/-- Counterexample to C5 as stated: processing the same same-minute tick
twice is NOT the same as processing it once — the duplicate's size is
added to the volume again (tick of size 3: volume 3 after one pass, 6
after two). -/
theorem duplicate_tick_not_idempotent :
    processTicks barW [tickW, tickW] ≠ processTicks barW [tickW] := by
  intro h
  have hv := congrArg Bar.volume h
  simp [processTicks, barStep, updateBar, barW, tickW] at hv

/-- Claim C5, amended: processing a same-minute tick twice leaves the
bar's minute, open, high, low and close exactly as processing it once,
but the volume is larger by the tick's size — the aggregator is
idempotent to duplicates in every field except the volume, which
double-counts them. -/
theorem duplicate_tick_ohlc_idempotent (b : Bar) (m : ℚ) (t : Tick)
    (hb : b.minute = some m) (ht : t.minute = m) :
    processTicks b [t, t] =
      { processTicks b [t] with
          volume := (processTicks b [t]).volume + t.size } := by
  have hb' : (updateBar b t.price t.size).minute = some m := by
    simpa [updateBar] using hb
  rw [processTicks_cons_same t [t] hb ht,
    processTicks_cons_same t ([] : List Tick) hb' ht,
    processTicks_cons_same t ([] : List Tick) hb ht]
  simp [processTicks, updateBar, max_assoc, max_self, min_assoc, min_self]

/-- Witness for the amended C5 at a concrete bar and tick. -/
theorem duplicate_tick_ohlc_idempotent_witness :
    processTicks barW [tickW, tickW] =
      { processTicks barW [tickW] with
          volume := (processTicks barW [tickW]).volume + tickW.size } :=
  duplicate_tick_ohlc_idempotent barW 0 tickW rfl rfl

/-- One `updateHighWater` step never decreases the mark and ends at or
above the observed price. -/
theorem updateHighWater_le (hw price : ℚ) :
    hw ≤ updateHighWater hw price ∧ price ≤ updateHighWater hw price := by
  unfold updateHighWater
  split <;> constructor <;> linarith

/-- A fold of `updateHighWater` starts at or above its seed. -/
theorem le_foldl_updateHighWater (ps : List ℚ) :
    ∀ hw : ℚ, hw ≤ ps.foldl updateHighWater hw := by
  induction ps with
  | nil => intro hw; simp
  | cons p ps ih =>
      intro hw
      calc hw ≤ updateHighWater hw p := (updateHighWater_le hw p).1
        _ ≤ _ := ih _

/-- Claim C7: while the position is LONG the cycle sets the high-water
mark to `updateHighWater` of the old mark and the observed price, which
is at least both; hence across any sequence of price observations the
mark never decreases from one cycle to a later one. -/
theorem high_water_mark_monotone (cfg : Config) (stop_requested : Bool)
    (s : AlgoState) (curH curL hl_diff price ts aq ab DV_after : ℚ)
    (ticker_bid : Option ℚ) (fill : FillOutcome)
    (hlong : s.in_position = true) :
    (handleCycle cfg stop_requested s curH curL hl_diff price ts aq ab
        ticker_bid fill DV_after).state.high_water
        = updateHighWater s.high_water price ∧
      s.high_water ≤ updateHighWater s.high_water price ∧
      price ≤ updateHighWater s.high_water price ∧
      ∀ (hw : ℚ) (ps qs : List ℚ),
        ps.foldl updateHighWater hw ≤ (ps ++ qs).foldl updateHighWater hw := by
  refine ⟨?_, (updateHighWater_le _ _).1, (updateHighWater_le _ _).2,
    fun hw ps qs => ?_⟩
  · unfold handleCycle
    simp only [hlong]
    split
    · simp_all
    · split
      · split
        · split
          · rfl
          · cases fill <;> rfl
        · rfl
      · simp_all
  · rw [List.foldl_append]
    exact le_foldl_updateHighWater qs _

/-- Witness for C7 at a concrete LONG state and price. -/
theorem high_water_mark_monotone_witness :
    (handleCycle cfgW false longW 1 1 0 (118/10) 5 0 (1/10) none
        (.ok 1 1) 0).state.high_water
        = updateHighWater longW.high_water (118/10) ∧
      longW.high_water ≤ updateHighWater longW.high_water (118/10) ∧
      (118/10 : ℚ) ≤ updateHighWater longW.high_water (118/10) ∧
      ∀ (hw : ℚ) (ps qs : List ℚ),
        ps.foldl updateHighWater hw ≤ (ps ++ qs).foldl updateHighWater hw :=
  high_water_mark_monotone cfgW false longW 1 1 0 (118/10) 5 0 (1/10) 0
    none (.ok 1 1) rfl

/-- Claim C3: when FLAT with sell-only off, hl_diff at threshold,
predicted_high ≥ 0, predicted_low > 0 and the cached quote balance above
the epsilon, the buy quantity is the available quote over the quantized
reference price, floor-quantized to the base increment — so quantity ×
price never exceeds the available quote — the cycle is skipped with only
a log message when that quantity is below baseMinSize, and otherwise the
submitted buy request carries exactly that quantity. -/
theorem entry_sizing (cfg : Config) (stop_requested : Bool) (s : AlgoState)
    (curH curL hl_diff price ts aq ab DV_after : ℚ)
    (ticker_bid : Option ℚ) (fill : FillOutcome)
    (hflat : s.in_position = false) (hstop : stop_requested = false)
    (hhl : hl_diff ≥ cfg.HL_DIFF_THRESHOLD) (hH : curH ≥ 0) (hL : curL > 0)
    (haq : aq > 1/100000000) (hinc : 0 < cfg.BASE_INCREMENT)
    (hp : 0 < buyRefPrice cfg ticker_bid price) :
    buyQty cfg aq (buyRefPrice cfg ticker_bid price) *
        buyRefPrice cfg ticker_bid price ≤ aq ∧
      (buyQty cfg aq (buyRefPrice cfg ticker_bid price) < cfg.BASE_MIN_SIZE →
        handleCycle cfg stop_requested s curH curL hl_diff price ts aq ab
          ticker_bid fill DV_after = ⟨s, none, [.buyQtyBelowMin]⟩) ∧
      (¬buyQty cfg aq (buyRefPrice cfg ticker_bid price) < cfg.BASE_MIN_SIZE →
        (handleCycle cfg stop_requested s curH curL hl_diff price ts aq ab
            ticker_bid fill DV_after).request =
          some (.buy (buyRefPrice cfg ticker_bid price)
            (buyQty cfg aq (buyRefPrice cfg ticker_bid price)))) := by
  have hgate : ¬(s.in_position = true) ∧ ¬(stop_requested = true) ∧
      hl_diff ≥ cfg.HL_DIFF_THRESHOLD ∧ curH ≥ 0 ∧ curL > 0 :=
    ⟨by simp [hflat], by simp [hstop], hhl, hH, hL⟩
  have haq' : ¬(aq ≤ 1 / 100000000) := by linarith
  refine ⟨?_, fun hlt => ?_, fun hge => ?_⟩
  · unfold buyQty
    exact (le_div_iff₀ hp).mp (quantizeDown_le hinc)
  · simp only [handleCycle]
    rw [if_pos hgate, if_neg haq', if_pos hlt]
  · simp only [handleCycle]
    rw [if_pos hgate, if_neg haq', if_neg hge]
    cases fill <;> rfl

/-- Witness for C3 at the end-to-end scenario-1 numbers: quote balance
100, best bid 10 with 0.1% slippage, price increment 0.01, base increment
0.001 — reference price 10.01, quantity 9.99, notional 99.9999 ≤ 100. -/
theorem entry_sizing_witness :
    buyQty cfgW 100 (buyRefPrice cfgW (some 10) 10) *
        buyRefPrice cfgW (some 10) 10 ≤ 100 ∧
      (buyQty cfgW 100 (buyRefPrice cfgW (some 10) 10) < cfgW.BASE_MIN_SIZE →
        handleCycle cfgW false flatW 1 1 (3/1000) 10 0 100 0 (some 10)
          (.ok 1 1) 0 = ⟨flatW, none, [.buyQtyBelowMin]⟩) ∧
      (¬buyQty cfgW 100 (buyRefPrice cfgW (some 10) 10) < cfgW.BASE_MIN_SIZE →
        (handleCycle cfgW false flatW 1 1 (3/1000) 10 0 100 0 (some 10)
            (.ok 1 1) 0).request =
          some (.buy (buyRefPrice cfgW (some 10) 10)
            (buyQty cfgW 100 (buyRefPrice cfgW (some 10) 10)))) :=
  entry_sizing cfgW false flatW 1 1 (3/1000) 10 0 100 0 0 (some 10)
    (.ok 1 1) rfl rfl (by norm_num [cfgW]) (by norm_num) (by norm_num)
    (by norm_num) (by norm_num [cfgW])
    (by norm_num [cfgW, buyRefPrice, floor_price_to_tick])

/-- Counterexample to C9 as stated: with base increment = baseMinSize =
0.1, a LONG position whose trailing stop has fired and a cached base
balance of exactly 0.1, the sellable quantity equals baseMinSize — at
least baseMinSize, so the claim demands a sell — yet the code's
`qty <= BASE_MIN_SIZE` check skips the cycle: no request is submitted
and the position stays LONG. -/
theorem exit_boundary_counterexample :
    exitCond cfgB (updateHighWater longW.high_water (118/10)) (118/10) 1 5
        longW.buy_time ∧
      sellQty cfgB (1/10) ≥ cfgB.BASE_MIN_SIZE ∧
      (handleCycle cfgB false longW 1 1 0 (118/10) 5 0 (1/10) none
          (.ok 1 1) 0).request = none ∧
      (handleCycle cfgB false longW 1 1 0 (118/10) 5 0 (1/10) none
          (.ok 1 1) 0).state.in_position = true := by
  refine ⟨?_, ?_, ?_, ?_⟩
  · left
    norm_num [cfgB, longW, updateHighWater]
  · norm_num [sellQty, cfgB]
  · norm_num [handleCycle, cfgB, longW, exitCond, updateHighWater, sellQty]
  · norm_num [handleCycle, cfgB, longW, exitCond, updateHighWater, sellQty]

/-- Claim C9, amended: on an exit trigger while LONG the sellable
quantity is the cached base balance floored to the base increment; the
cycle is skipped (logged, no retry, position stays LONG) exactly when
that quantity is at most baseMinSize — including the boundary case of
exactly baseMinSize — and a sell is submitted whenever the quantity is
strictly above baseMinSize. -/
theorem exit_validation_skip (cfg : Config) (stop_requested : Bool)
    (s : AlgoState) (curH curL hl_diff price ts aq ab DV_after : ℚ)
    (ticker_bid : Option ℚ) (fill : FillOutcome)
    (hlong : s.in_position = true)
    (hexit : exitCond cfg (updateHighWater s.high_water price) price curH ts
      s.buy_time) :
    (sellQty cfg ab ≤ cfg.BASE_MIN_SIZE →
        handleCycle cfg stop_requested s curH curL hl_diff price ts aq ab
            ticker_bid fill DV_after =
          ⟨{ s with high_water := updateHighWater s.high_water price },
            none, [.notEnoughToSell]⟩) ∧
      (¬sellQty cfg ab ≤ cfg.BASE_MIN_SIZE →
        (handleCycle cfg stop_requested s curH curL hl_diff price ts aq ab
            ticker_bid fill DV_after).request =
          some (.sell price (sellQty cfg ab))) := by
  have hgate : ¬(¬(s.in_position = true) ∧ ¬(stop_requested = true) ∧
      hl_diff ≥ cfg.HL_DIFF_THRESHOLD ∧ curH ≥ 0 ∧ curL > 0) :=
    fun h => h.1 hlong
  refine ⟨fun hle => ?_, fun hgt => ?_⟩
  · simp only [handleCycle]
    rw [if_neg hgate, if_pos hlong, if_pos hexit, if_pos hle]
  · simp only [handleCycle]
    rw [if_neg hgate, if_pos hlong, if_pos hexit, if_neg hgt]
    cases fill <;> rfl

/-- Witness for the amended C9: LONG at high water 12, trailing stop
fired at price 11.8, base balance 0.5 with increment 0.001 — quantity
0.5 > baseMinSize 0.1, so a sell for 0.5 is submitted. -/
theorem exit_validation_skip_witness :
    (sellQty cfgW (1/2) ≤ cfgW.BASE_MIN_SIZE →
        handleCycle cfgW false longW 1 1 0 (118/10) 5 0 (1/2) none
            (.ok 1 1) 0 =
          ⟨{ longW with
              high_water := updateHighWater longW.high_water (118/10) },
            none, [.notEnoughToSell]⟩) ∧
      (¬sellQty cfgW (1/2) ≤ cfgW.BASE_MIN_SIZE →
        (handleCycle cfgW false longW 1 1 0 (118/10) 5 0 (1/2) none
            (.ok 1 1) 0).request =
          some (.sell (118/10) (sellQty cfgW (1/2)))) :=
  exit_validation_skip cfgW false longW 1 1 0 (118/10) 5 0 (1/2) 0 none
    (.ok 1 1) rfl
    (by left; norm_num [cfgW, longW, updateHighWater])

/-- While LONG, the submitted request is the sell request exactly when
the exit trigger fires and the sellable quantity clears the minimum,
independently of the fill outcome. -/
theorem handleCycle_long_request (cfg : Config) (stop_requested : Bool)
    (s : AlgoState) (curH curL hl_diff price ts aq ab DV_after : ℚ)
    (ticker_bid : Option ℚ) (fill : FillOutcome)
    (hlong : s.in_position = true) :
    (handleCycle cfg stop_requested s curH curL hl_diff price ts aq ab
        ticker_bid fill DV_after).request =
      if exitCond cfg (updateHighWater s.high_water price) price curH ts
          s.buy_time then
        if sellQty cfg ab ≤ cfg.BASE_MIN_SIZE then none
        else some (.sell price (sellQty cfg ab))
      else none := by
  have hgate : ¬(¬(s.in_position = true) ∧ ¬(stop_requested = true) ∧
      hl_diff ≥ cfg.HL_DIFF_THRESHOLD ∧ curH ≥ 0 ∧ curL > 0) :=
    fun h => h.1 hlong
  simp only [handleCycle]
  rw [if_neg hgate, if_pos hlong]
  by_cases hexit : exitCond cfg (updateHighWater s.high_water price) price
      curH ts s.buy_time
  · rw [if_pos hexit, if_pos hexit]
    by_cases hqty : sellQty cfg ab ≤ cfg.BASE_MIN_SIZE
    · rw [if_pos hqty, if_pos hqty]
    · rw [if_neg hqty, if_neg hqty]
      cases fill <;> rfl
  · rw [if_neg hexit, if_neg hexit]

/-- While LONG, the "not enough to sell" log appears exactly when the
exit trigger fires and the sellable quantity is at most the minimum. -/
theorem handleCycle_long_logs (cfg : Config) (stop_requested : Bool)
    (s : AlgoState) (curH curL hl_diff price ts aq ab DV_after : ℚ)
    (ticker_bid : Option ℚ) (fill : FillOutcome)
    (hlong : s.in_position = true) :
    ((handleCycle cfg stop_requested s curH curL hl_diff price ts aq ab
        ticker_bid fill DV_after).logs = [.notEnoughToSell] ↔
      exitCond cfg (updateHighWater s.high_water price) price curH ts
          s.buy_time ∧
        sellQty cfg ab ≤ cfg.BASE_MIN_SIZE) := by
  have hgate : ¬(¬(s.in_position = true) ∧ ¬(stop_requested = true) ∧
      hl_diff ≥ cfg.HL_DIFF_THRESHOLD ∧ curH ≥ 0 ∧ curL > 0) :=
    fun h => h.1 hlong
  simp only [handleCycle]
  rw [if_neg hgate, if_pos hlong]
  by_cases hexit : exitCond cfg (updateHighWater s.high_water price) price
      curH ts s.buy_time
  · rw [if_pos hexit]
    by_cases hqty : sellQty cfg ab ≤ cfg.BASE_MIN_SIZE
    · simp [hexit, hqty]
    · rw [if_neg hqty]
      cases fill <;> simp [hexit, hqty]
  · rw [if_neg hexit]
    simp [hexit]

/-- While LONG, the state actually flips to FLAT exactly when the exit
trigger fires, the sellable quantity clears the minimum, and the
confirmation returned a fill. -/
theorem handleCycle_long_in_position (cfg : Config) (stop_requested : Bool)
    (s : AlgoState) (curH curL hl_diff price ts aq ab DV_after : ℚ)
    (ticker_bid : Option ℚ) (fill : FillOutcome)
    (hlong : s.in_position = true) :
    ((handleCycle cfg stop_requested s curH curL hl_diff price ts aq ab
        ticker_bid fill DV_after).state.in_position = false ↔
      exitCond cfg (updateHighWater s.high_water price) price curH ts
          s.buy_time ∧
        ¬sellQty cfg ab ≤ cfg.BASE_MIN_SIZE ∧
        ∃ fp fs, fill = .ok fp fs) := by
  have hgate : ¬(¬(s.in_position = true) ∧ ¬(stop_requested = true) ∧
      hl_diff ≥ cfg.HL_DIFF_THRESHOLD ∧ curH ≥ 0 ∧ curL > 0) :=
    fun h => h.1 hlong
  simp only [handleCycle]
  rw [if_neg hgate, if_pos hlong]
  by_cases hexit : exitCond cfg (updateHighWater s.high_water price) price
      curH ts s.buy_time
  · rw [if_pos hexit]
    by_cases hqty : sellQty cfg ab ≤ cfg.BASE_MIN_SIZE
    · simp [hqty, hexit, hlong]
    · rw [if_neg hqty]
      cases fill <;> simp [hexit, hqty, hlong]
  · rw [if_neg hexit]
    simp [hexit, hlong]

/-- Claim C10: the stored profit target `exit_price` is never read by any
exit decision — the outcome of a LONG cycle (request issued and whether
the position flips to FLAT) is unchanged under any stored `exit_price`;
the exit evaluation fires (a sell request or the insufficient-balance
skip) iff trailing stop, negative predicted_high, or time stop holds;
and the LONG→FLAT flip happens iff that trigger holds along with a
sufficient quantity and a confirmed fill — so reaching the profit target
alone never triggers an exit. -/
theorem profit_target_not_read (cfg : Config) (stop_requested : Bool)
    (s : AlgoState) (curH curL hl_diff price ts aq ab DV_after : ℚ)
    (ticker_bid : Option ℚ) (fill : FillOutcome)
    (hlong : s.in_position = true) :
    (∀ x : ℚ,
        (handleCycle cfg stop_requested { s with exit_price := x } curH curL
            hl_diff price ts aq ab ticker_bid fill DV_after).request =
          (handleCycle cfg stop_requested s curH curL hl_diff price ts aq ab
            ticker_bid fill DV_after).request ∧
        (handleCycle cfg stop_requested { s with exit_price := x } curH curL
            hl_diff price ts aq ab ticker_bid fill
            DV_after).state.in_position =
          (handleCycle cfg stop_requested s curH curL hl_diff price ts aq ab
            ticker_bid fill DV_after).state.in_position) ∧
      (((handleCycle cfg stop_requested s curH curL hl_diff price ts aq ab
            ticker_bid fill DV_after).request ≠ none ∨
          (handleCycle cfg stop_requested s curH curL hl_diff price ts aq ab
            ticker_bid fill DV_after).logs = [.notEnoughToSell]) ↔
        exitCond cfg (updateHighWater s.high_water price) price curH ts
          s.buy_time) ∧
      ((handleCycle cfg stop_requested s curH curL hl_diff price ts aq ab
          ticker_bid fill DV_after).state.in_position = false ↔
        exitCond cfg (updateHighWater s.high_water price) price curH ts
            s.buy_time ∧
          ¬sellQty cfg ab ≤ cfg.BASE_MIN_SIZE ∧
          ∃ fp fs, fill = .ok fp fs) := by
  have hgate : ¬(¬(s.in_position = true) ∧ ¬(stop_requested = true) ∧
      hl_diff ≥ cfg.HL_DIFF_THRESHOLD ∧ curH ≥ 0 ∧ curL > 0) :=
    fun h => h.1 hlong
  refine ⟨fun x => ?_, ?_, ?_⟩
  · constructor
    all_goals
      simp only [handleCycle]
      dsimp only
      simp only [if_neg hgate, if_pos hlong]
      by_cases hexit : exitCond cfg (updateHighWater s.high_water price)
          price curH ts s.buy_time
      · simp only [if_pos hexit]
        by_cases hqty : sellQty cfg ab ≤ cfg.BASE_MIN_SIZE
        · simp only [if_pos hqty]
        · simp only [if_neg hqty]
          cases fill <;> rfl
      · simp only [if_neg hexit]
  · rw [handleCycle_long_request cfg stop_requested s curH curL hl_diff price
      ts aq ab DV_after ticker_bid fill hlong]
    rw [handleCycle_long_logs cfg stop_requested s curH curL hl_diff price ts
      aq ab DV_after ticker_bid fill hlong]
    by_cases hexit : exitCond cfg (updateHighWater s.high_water price) price
        curH ts s.buy_time
    · by_cases hqty : sellQty cfg ab ≤ cfg.BASE_MIN_SIZE <;>
        simp [hexit, hqty]
    · simp [hexit]
  · exact handleCycle_long_in_position cfg stop_requested s curH curL hl_diff
      price ts aq ab DV_after ticker_bid fill hlong

/-- Witness for C10 at a concrete LONG state whose price (10.3) has
reached the stored profit target (10.2) while no exit trigger holds:
no request is issued and the position stays LONG. -/
theorem profit_target_not_read_witness :
    (∀ x : ℚ,
        (handleCycle cfgW false { longW with exit_price := x } 1 1 0 (103/10)
            5 0 (1/2) none (.ok 1 1) 0).request =
          (handleCycle cfgW false longW 1 1 0 (103/10) 5 0 (1/2) none
            (.ok 1 1) 0).request ∧
        (handleCycle cfgW false { longW with exit_price := x } 1 1 0 (103/10)
            5 0 (1/2) none (.ok 1 1) 0).state.in_position =
          (handleCycle cfgW false longW 1 1 0 (103/10) 5 0 (1/2) none
            (.ok 1 1) 0).state.in_position) ∧
      (((handleCycle cfgW false longW 1 1 0 (103/10) 5 0 (1/2) none
            (.ok 1 1) 0).request ≠ none ∨
          (handleCycle cfgW false longW 1 1 0 (103/10) 5 0 (1/2) none
            (.ok 1 1) 0).logs = [.notEnoughToSell]) ↔
        exitCond cfgW (updateHighWater longW.high_water (103/10)) (103/10) 1
          5 longW.buy_time) ∧
      ((handleCycle cfgW false longW 1 1 0 (103/10) 5 0 (1/2) none
          (.ok 1 1) 0).state.in_position = false ↔
        exitCond cfgW (updateHighWater longW.high_water (103/10)) (103/10) 1
            5 longW.buy_time ∧
          ¬sellQty cfgW (1/2) ≤ cfgW.BASE_MIN_SIZE ∧
          ∃ fp fs, (FillOutcome.ok 1 1) = .ok fp fs) :=
  profit_target_not_read cfgW false longW 1 1 0 (103/10) 5 0 (1/2) 0 none
    (.ok 1 1) rfl

/-- The retry loop consumes at most `attempt + fuel - 1` attempt
numbers. -/
theorem retry_go_attempts_le (o : Nat → Option SubmitResp)
    (side symbol : String) (price qty ts : ℚ) :
    ∀ (fuel attempt : Nat) (ledger : List Trade) (delay : ℚ)
      (delays : List ℚ),
      (retry_go o side symbol price qty ts ledger attempt fuel delay
        delays).attempts ≤ attempt + fuel - 1 := by
  intro fuel
  induction fuel with
  | zero =>
      intro attempt ledger delay delays
      simp only [retry_go]
      omega
  | succ f ih =>
      intro attempt ledger delay delays
      simp only [retry_go]
      cases ho : o attempt with
      | some resp => simp
      | none =>
          by_cases hf : f = 0
          · subst hf; simp
          · simp only [if_neg hf]
            calc (retry_go o side symbol price qty ts ledger (attempt + 1) f
                  (delay * 2) (delays ++ [delay])).attempts
                ≤ attempt + 1 + f - 1 := ih (attempt + 1) ledger (delay * 2)
                  (delays ++ [delay])
              _ ≤ attempt + (f + 1) - 1 := by omega

/-- The retry loop keeps the invariant that after `attempt - 1` failed
attempts the accumulated delays are `1, 2, 4, …` (doubling from the
initial 1-second delay) and the current delay is the next power of
two. -/
theorem retry_go_delays (o : Nat → Option SubmitResp)
    (side symbol : String) (price qty ts : ℚ) :
    ∀ (fuel attempt : Nat) (ledger : List Trade), 1 ≤ fuel → 1 ≤ attempt →
      (retry_go o side symbol price qty ts ledger attempt fuel
          (INITIAL_RETRY_DELAY * 2 ^ (attempt - 1))
          ((List.range (attempt - 1)).map
            (fun i => INITIAL_RETRY_DELAY * 2 ^ i))).delays
        = (List.range
            ((retry_go o side symbol price qty ts ledger attempt fuel
                (INITIAL_RETRY_DELAY * 2 ^ (attempt - 1))
                ((List.range (attempt - 1)).map
                  (fun i => INITIAL_RETRY_DELAY * 2 ^ i))).attempts
              - 1)).map (fun i => INITIAL_RETRY_DELAY * 2 ^ i) := by
  intro fuel
  induction fuel with
  | zero => intro attempt ledger hfuel; omega
  | succ f ih =>
      intro attempt ledger _ hattempt
      simp only [retry_go]
      cases ho : o attempt with
      | some resp => simp
      | none =>
          by_cases hf : f = 0
          · subst hf; simp
          · simp only [if_neg hf]
            have hstep :
                (List.range (attempt - 1)).map
                    (fun i => INITIAL_RETRY_DELAY * 2 ^ i) ++
                  [INITIAL_RETRY_DELAY * 2 ^ (attempt - 1)]
                = (List.range (attempt + 1 - 1)).map
                    (fun i => INITIAL_RETRY_DELAY * 2 ^ i) := by
              have h1 : attempt + 1 - 1 = (attempt - 1) + 1 := by omega
              rw [h1, List.range_succ]
              simp
            have hdel : INITIAL_RETRY_DELAY * 2 ^ (attempt - 1) * 2
                = INITIAL_RETRY_DELAY * 2 ^ (attempt + 1 - 1) := by
              have h1 : attempt + 1 - 1 = (attempt - 1) + 1 := by omega
              rw [h1, pow_succ]
              ring
            rw [hstep, hdel]
            exact ih (attempt + 1) ledger (by omega) (by omega)

/-- A failed `place_and_confirm_order` attempt never flips the position
flag: every `.err` path of the decision cell carries the caller's
`in_position` through unchanged. -/
theorem handleCycle_err_in_position (cfg : Config) (stop_requested : Bool)
    (s : AlgoState) (curH curL hl_diff price ts aq ab DV_after : ℚ)
    (ticker_bid : Option ℚ) :
    (handleCycle cfg stop_requested s curH curL hl_diff price ts aq ab
      ticker_bid .err DV_after).state.in_position = s.in_position := by
  simp only [handleCycle]
  split_ifs <;> rfl

/-- Claim C8: order submission makes at most 5 attempts; the delays slept
between attempts start at 1 second and double after every attempt; when
every attempt fails the error propagates as a failure after exactly 5
attempts and delays 1, 2, 4, 8 with no order recorded; and the caller
treats such a failure as a skipped cycle — its position flag is
unchanged (FLAT stays FLAT on entry, LONG stays LONG on exit), never a
process failure. -/
theorem submission_retry_policy (o : Nat → Option SubmitResp)
    (side symbol : String) (price qty ts : ℚ) (ledger : List Trade) :
    (place_order_with_retry o side symbol price qty ts ledger).attempts
        ≤ MAX_ORDER_RETRIES ∧
      (place_order_with_retry o side symbol price qty ts ledger).delays
        = (List.range
            ((place_order_with_retry o side symbol price qty ts
              ledger).attempts - 1)).map
            (fun i => INITIAL_RETRY_DELAY * 2 ^ i) ∧
      ((∀ i, o i = none) →
        place_order_with_retry o side symbol price qty ts ledger
          = ⟨.err, 5, [1, 2, 4, 8], ledger⟩) ∧
      (∀ (cfg : Config) (stop_requested : Bool) (s : AlgoState)
          (curH curL hl_diff price2 ts2 aq ab DV_after : ℚ)
          (ticker_bid : Option ℚ),
        (handleCycle cfg stop_requested s curH curL hl_diff price2 ts2 aq ab
          ticker_bid .err DV_after).state.in_position = s.in_position) := by
  refine ⟨?_, ?_, fun ho => ?_, ?_⟩
  · calc (place_order_with_retry o side symbol price qty ts ledger).attempts
        ≤ 1 + MAX_ORDER_RETRIES - 1 :=
          retry_go_attempts_le o side symbol price qty ts MAX_ORDER_RETRIES 1
            ledger INITIAL_RETRY_DELAY []
      _ = MAX_ORDER_RETRIES := by omega
  · have h := retry_go_delays o side symbol price qty ts MAX_ORDER_RETRIES 1
      ledger (by norm_num [MAX_ORDER_RETRIES]) le_rfl
    simpa [place_order_with_retry] using h
  · simp only [place_order_with_retry, MAX_ORDER_RETRIES, retry_go, ho,
      INITIAL_RETRY_DELAY]
    norm_num
  · intro cfg stop_requested s curH curL hl_diff price2 ts2 aq ab DV_after
      ticker_bid
    exact handleCycle_err_in_position cfg stop_requested s curH curL hl_diff
      price2 ts2 aq ab DV_after ticker_bid

/-- Witness for C8: a submission whose five attempts all fail ends as an
error after exactly 5 attempts with backoff delays 1, 2, 4, 8 and an
unchanged ledger. -/
theorem submission_retry_policy_witness :
    place_order_with_retry (fun _ => none) "buy" "KCS-USDT" 10 1 0 []
      = ⟨.err, 5, [1, 2, 4, 8], []⟩ :=
  (submission_retry_policy (fun _ => none) "buy" "KCS-USDT" 10 1 0
    []).2.2.1 (fun _ => rfl)

/-- Polls that observe the order active within the 60-second budget are
skipped by the confirmation loop. -/
theorem confirmLoop_skip (ledger : List Trade) (oid : String)
    (polls : List PollObs) :
    ∀ pre : List PollObs,
      (∀ p ∈ pre, p.isActive = true ∧ p.elapsed ≤ 60) →
      confirmLoop ledger oid (pre ++ polls) = confirmLoop ledger oid polls := by
  intro pre
  induction pre with
  | nil => intro _; rfl
  | cons p ps ih =>
      intro h
      have hp := h p (by simp)
      simp only [List.cons_append, confirmLoop]
      rw [if_neg (by simp [hp.1]), if_neg (not_lt.mpr hp.2)]
      exact ih (fun q hq => h q (by simp [hq]))

/-- Updating a status rewrites exactly the looked-up record. -/
theorem find_update_self (db : List Trade) (oid st : String) :
    find_by_order_id (update_trade_status db oid st) oid
      = (find_by_order_id db oid).map (fun t => { t with status := st }) := by
  induction db with
  | nil => rfl
  | cons t rest ih =>
      by_cases h : t.order_id = oid
      · simp [update_trade_status, find_by_order_id, h]
      · simp [update_trade_status, find_by_order_id, h]
        simpa [find_by_order_id] using ih

/-- Claim C2: when confirmation polling observes the order still active
more than 60 seconds after polling began (all earlier polls active and
within budget), the pipeline issues an explicit cancel request, the
persisted record's status becomes "canceled", and a timeout failure is
raised to the caller; a failed attempt leaves the caller's position flag
unchanged (still FLAT for an entry attempt). -/
theorem confirmation_timeout (ledger : List Trade) (oid : String)
    (pre : List PollObs) (obs : PollObs) (rest : List PollObs)
    (hpre : ∀ p ∈ pre, p.isActive = true ∧ p.elapsed ≤ 60)
    (hact : obs.isActive = true) (hel : obs.elapsed > 60)
    (hrec : (find_by_order_id ledger oid).isSome = true) :
    confirmLoop ledger oid (pre ++ obs :: rest)
        = (.timeoutCanceled, update_trade_status ledger oid "canceled",
            true) ∧
      (find_by_order_id
            (confirmLoop ledger oid (pre ++ obs :: rest)).2.1 oid).map
          Trade.status = some "canceled" ∧
      ∀ (cfg : Config) (stop_requested : Bool) (s : AlgoState)
          (curH curL hl_diff price ts aq ab DV_after : ℚ)
          (ticker_bid : Option ℚ),
        (handleCycle cfg stop_requested s curH curL hl_diff price ts aq ab
          ticker_bid .err DV_after).state.in_position = s.in_position := by
  have h1 : confirmLoop ledger oid (pre ++ obs :: rest)
      = (.timeoutCanceled, update_trade_status ledger oid "canceled",
          true) := by
    rw [confirmLoop_skip ledger oid (obs :: rest) pre hpre]
    simp only [confirmLoop]
    rw [if_neg (by simp [hact]), if_pos hel]
  refine ⟨h1, ?_, ?_⟩
  · rw [h1]
    obtain ⟨t, ht⟩ := Option.isSome_iff_exists.mp hrec
    simp [find_update_self, ht]
  · intro cfg stop_requested s curH curL hl_diff price ts aq ab DV_after
      ticker_bid
    exact handleCycle_err_in_position cfg stop_requested s curH curL hl_diff
      price ts aq ab DV_after ticker_bid

/-- Witness for C2: an open buy record and a single poll observing the
order still active 61 seconds in — cancel issued, record canceled,
timeout raised. -/
theorem confirmation_timeout_witness :
    confirmLoop [rOpenW] "oid1" ([] ++ ⟨"open", true, 61⟩ :: [])
        = (.timeoutCanceled,
            update_trade_status [rOpenW] "oid1" "canceled", true) ∧
      (find_by_order_id
            (confirmLoop [rOpenW] "oid1"
              ([] ++ ⟨"open", true, 61⟩ :: [])).2.1 "oid1").map
          Trade.status = some "canceled" ∧
      ∀ (cfg : Config) (stop_requested : Bool) (s : AlgoState)
          (curH curL hl_diff price ts aq ab DV_after : ℚ)
          (ticker_bid : Option ℚ),
        (handleCycle cfg stop_requested s curH curL hl_diff price ts aq ab
          ticker_bid .err DV_after).state.in_position = s.in_position :=
  confirmation_timeout [rOpenW] "oid1" [] ⟨"open", true, 61⟩ []
    (by simp) rfl (by norm_num) rfl

/-- Claim C1: a Ledger holding exactly one open buy record that the
exchange reports inactive with operation type "deal" converges in one
reconciliation run: the record's status becomes "filled" and the
in-memory position is restored to LONG with entry price, entry time and
high-water mark taken from the persisted record, the profit target
recomputed from its price, and the quote snapshot refreshed. -/
theorem reconciliation_convergence (cfg : Config)
    (exch : String → Option ExchOrder) (quote_avail : ℚ) (pos : AlgoState)
    (r : Trade) (hstatus : r.status = "open")
    (htype : strLower r.type = "buy")
    (hexch : exch r.order_id = some ⟨"deal", false⟩) :
    sync_open_trades cfg exch quote_avail [r] pos
      = ([{ r with status := "filled" }],
        { pos with
            in_position := true
            BP := r.price
            buy_time := r.timestamp
            high_water := r.price
            exit_price := r.price * cfg.PROFIT_TARGET_MULT
            DV_before_trade := quote_avail }) := by
  have hpend : pendingTrades [r] = [r] := by
    simp [pendingTrades, hstatus]
  have hupd : update_trade_status [r] r.order_id "filled"
      = [{ r with status := "filled" }] := by
    simp [update_trade_status]
  unfold sync_open_trades
  rw [hpend]
  simp only [List.foldl_cons, List.foldl_nil]
  unfold sync_step
  rw [hexch]
  simp [mapOpType, hstatus, htype, hupd]

/-- Witness for C1 at a concrete open buy record and a "deal" exchange
response. -/
theorem reconciliation_convergence_witness :
    sync_open_trades cfgW (fun _ => some ⟨"deal", false⟩) 77 [rOpenW] flatW
      = ([{ rOpenW with status := "filled" }],
        { flatW with
            in_position := true
            BP := rOpenW.price
            buy_time := rOpenW.timestamp
            high_water := rOpenW.price
            exit_price := rOpenW.price * cfgW.PROFIT_TARGET_MULT
            DV_before_trade := 77 }) :=
  reconciliation_convergence cfgW (fun _ => some ⟨"deal", false⟩) 77 flatW
    rOpenW rfl rfl rfl

/-- Counterexample to C6 as stated: `update_trade_status` has no
terminality guard, so a confirmation-path update can overwrite a
terminal status.  A record already persisted as "filled" (e.g. the
submission response said "done") whose next poll reports it inactive
with raw status "cancelled" is rewritten to "canceled" by the
confirmation loop. -/
theorem terminal_status_overwritten :
    rFilledW.status = "filled" ∧
      (find_by_order_id
          (confirmLoop [rFilledW] "oid2" [⟨"cancelled", false, 1⟩]).2.1
          "oid2").map Trade.status = some "canceled" :=
  ⟨rfl, rfl⟩

/-- Status lookups keyed by a different order id are unaffected by an
update. -/
theorem find_update_ne (db : List Trade) (oid' st oid : String)
    (h : oid' ≠ oid) :
    find_by_order_id (update_trade_status db oid' st) oid
      = find_by_order_id db oid := by
  induction db with
  | nil => rfl
  | cons t rest ih =>
      simp only [update_trade_status]
      by_cases h1 : t.order_id = oid'
      · rw [if_pos h1]
        have h2 : ¬(t.order_id = oid) := by rw [h1]; exact h
        simp [find_by_order_id, h2]
      · rw [if_neg h1]
        by_cases h2 : t.order_id = oid
        · simp [find_by_order_id, h2]
        · simp [find_by_order_id, h2]
          simpa [find_by_order_id] using ih

/-- Folding reconciliation steps over pending records whose order ids
all differ from `oid` leaves the lookup at `oid` unchanged. -/
theorem sync_fold_preserves (cfg : Config)
    (exch : String → Option ExchOrder) (quote_avail : ℚ) (oid : String) :
    ∀ (ps : List Trade) (L : List Trade) (pos : AlgoState),
      (∀ p ∈ ps, p.order_id ≠ oid) →
      find_by_order_id
          (ps.foldl (sync_step cfg exch quote_avail) (L, pos)).1 oid
        = find_by_order_id L oid := by
  intro ps
  induction ps with
  | nil => intro L pos _; rfl
  | cons p ps ih =>
      intro L pos h
      have hpoid : p.order_id ≠ oid := h p (by simp)
      have hstep : find_by_order_id
          (sync_step cfg exch quote_avail (L, pos) p).1 oid
          = find_by_order_id L oid := by
        unfold sync_step
        cases hexch : exch p.order_id with
        | none => rfl
        | some data =>
            by_cases hact : data.isActive = true
            · simp [hact]
            · simp only [Bool.not_eq_true] at hact
              simp only [hact, Bool.false_eq_true, if_false]
              by_cases hne : mapOpType data.opType ≠ p.status
              · by_cases hbuy : strLower p.type = "buy" ∧
                    mapOpType data.opType = "filled"
                · rcases hbuy with ⟨hb1, hb2⟩
                  rw [hb2] at hne
                  simp [hb1, hb2, hne, find_update_ne _ _ _ _ hpoid]
                · simp [hne, hbuy, find_update_ne _ _ _ _ hpoid]
              · simp [hne]
      calc find_by_order_id
            (ps.foldl (sync_step cfg exch quote_avail)
              (sync_step cfg exch quote_avail (L, pos) p)).1 oid
          = find_by_order_id
              (sync_step cfg exch quote_avail (L, pos) p).1 oid :=
            ih (sync_step cfg exch quote_avail (L, pos) p).1
              (sync_step cfg exch quote_avail (L, pos) p).2
              (fun q hq => h q (by simp [hq]))
        _ = find_by_order_id L oid := hstep

/-- Claim C6, amended: once an OrderRecord's status is terminal
("filled" or "canceled"), reconciliation never changes it — the pending
query excludes terminal records, so `sync_open_trades` leaves the
record's ledger entry untouched (given the at-most-one-record-per-
order_id invariant).  `update_trade_status` itself, however, has no
terminality guard, so a confirmation-path or timeout status update keyed
by the order_id can still overwrite a terminal status. -/
theorem reconciliation_preserves_terminal (cfg : Config)
    (exch : String → Option ExchOrder) (quote_avail : ℚ)
    (ledger : List Trade) (pos : AlgoState)
    (hnodup : (ledger.map Trade.order_id).Nodup)
    (t : Trade) (ht : t ∈ ledger)
    (hterm : t.status = "filled" ∨ t.status = "canceled") :
    find_by_order_id (sync_open_trades cfg exch quote_avail ledger pos).1
        t.order_id
      = find_by_order_id ledger t.order_id := by
  unfold sync_open_trades
  apply sync_fold_preserves
  intro p hp
  have hpl : p ∈ ledger := (List.mem_filter.mp hp).1
  have hpst : ¬(p.status = "filled" ∨ p.status = "canceled") := by
    simpa using (List.mem_filter.mp hp).2
  intro he
  have hpt : p = t := List.inj_on_of_nodup_map hnodup hpl ht he
  rw [hpt] at hpst
  exact hpst hterm

/-- Witness for the amended C6: a singleton ledger holding a filled
record that the exchange would report as canceled — reconciliation
leaves the lookup unchanged because the record is not pending. -/
theorem reconciliation_preserves_terminal_witness :
    find_by_order_id
        (sync_open_trades cfgW (fun _ => some ⟨"cancel", false⟩) 77
          [rFilledW] flatW).1 rFilledW.order_id
      = find_by_order_id [rFilledW] rFilledW.order_id :=
  reconciliation_preserves_terminal cfgW (fun _ => some ⟨"cancel", false⟩)
    77 [rFilledW] flatW (by simp) rFilledW (by simp) (Or.inl rfl)

end TestBot
